import Mathlib

/-!
Verification of the wwebs request-execution engine (`src/server/mod.rs`,
`src/files/wwebs.rs`, `src/gemini/mod.rs`) against its natural-language
specification.

The Rust code is shallowly embedded:
* `HashMap<String, String>` values are modelled as association lists
  (`List (String × String)`) with HashMap-style insert/remove; iteration
  order of a real `HashMap` is arbitrary, the list order stands in for one
  such order.
* byte strings (`Vec<u8>`) are `List Nat`; text lines are `List Char`
  (Rust slices `&str` at byte offsets only ever at ASCII characters here,
  so character-level indexing coincides with the byte-level one).
* the filesystem is a finite tree `Entry`; permission bits `0o004`
  (other-readable) and `0o001` (other-executable) are the two `Perms`
  fields, exactly the two bits `exec` reads.
* an external process run is abstracted by its observable outcome
  `ProcResult` (spawn failure, I/O failure, or termination with captured
  stdout, stderr lines and wait result); `run_cgi`'s translation of that
  outcome into a `Response` is modelled faithfully.
* the recursion of `exec` is fuelled (`Option` result, `none` = fuel ran
  out); the real recursion terminates because the filesystem is finite.
-/

/-! ### Association lists standing in for `HashMap<String, String>` -/

/-- Lookup in an association list (first binding of the key wins). -/
def alLookup {α : Type} : List (String × α) → String → Option α
  | [], _ => none
  | (k, v) :: t, key => if k = key then some v else alLookup t key

/-- `HashMap::insert`: replace the binding in place, or append a fresh one. -/
def alInsert {α : Type} : List (String × α) → String → α → List (String × α)
  | [], k, v => [(k, v)]
  | (k', v') :: t, k, v => if k' = k then (k, v) :: t else (k', v') :: alInsert t k v

/-- `HashMap::remove`: drop the binding of the key. -/
def alRemove {α : Type} : List (String × α) → String → List (String × α)
  | [], _ => []
  | (k', v') :: t, k => if k' = k then t else (k', v') :: alRemove t k

/-- The keys of an association list. -/
def alKeys {α : Type} (l : List (String × α)) : List String :=
  l.map Prod.fst

/-- `a.into_iter().chain(b.into_iter()).collect::<HashMap<_,_>>()`:
every binding of `b` is inserted into `a`, so `b` wins on key conflicts. -/
def alUnion {α : Type} (a b : List (String × α)) : List (String × α) :=
  b.foldl (fun m kv => alInsert m kv.1 kv.2) a

/-- Right-biased choice on `Option`, used to state lookup laws. -/
def optOr {α : Type} (x y : Option α) : Option α :=
  match x with
  | some v => some v
  | none => y

/-! ### `src/files/wwebs.rs`: the configuration type and its combine operator -/

/-- `ResolutionInfo`: configuration for path resolution (`wwebs.rs`). -/
structure ResolutionInfo where
  index : Option String
deriving DecidableEq

/-- `impl BitAnd for ResolutionInfo` (`wwebs.rs` lines 41-52), with the
match arms in source order. -/
def ResolutionInfo.bitand (a b : ResolutionInfo) : ResolutionInfo :=
  ⟨match a.index, b.index with
    | none, none => none
    | _, some v => some v
    | some v, none => some v⟩

instance : AndOp ResolutionInfo := ⟨ResolutionInfo.bitand⟩

/-- `WWebS`: the parsed form of a `.wwebs.toml` descriptor file. -/
structure WWebS where
  resolution : Option ResolutionInfo := none
  env : Option (List (String × String)) := none
deriving DecidableEq

/-- `impl BitAnd for WWebS` (`wwebs.rs` lines 14-31). -/
def WWebS.bitand (a b : WWebS) : WWebS where
  resolution :=
    match a.resolution, b.resolution with
    | some v, none => some v
    | none, some v => some v
    | some x, some y => some (x &&& y)
    | none, none => none
  env :=
    match a.env, b.env with
    | some v, none => some v
    | none, some v => some v
    | some x, some y => some (alUnion x y)
    | none, none => none

instance : AndOp WWebS := ⟨WWebS.bitand⟩

/-- A `WWebS` value is the image of real `HashMap`s when its environment
map binds every key at most once. -/
def WWebS.envNodup (w : WWebS) : Prop :=
  match w.env with
  | some l => (alKeys l).Nodup
  | none => True

instance (w : WWebS) : Decidable w.envNodup := by
  unfold WWebS.envNodup
  match w.env with
  | some l => exact inferInstanceAs (Decidable (alKeys l).Nodup)
  | none => exact inferInstanceAs (Decidable True)

/-! ### `src/structures`: the canonical request and response -/

/-- `Response` (`structures/response.rs`): status 0 is the "unset /
successful" sentinel. -/
structure Response where
  status : Nat := 0
  headers : List (String × String) := []
  body : List Nat := []
deriving DecidableEq

/-- `Response::is_ok`: status 0 or in `[200, 300)`. -/
def Response.isOk (r : Response) : Bool :=
  r.status == 0 || (200 ≤ r.status && r.status < 300)

/-- `Response::internal_server_error`. -/
def Response.internalServerError : Response :=
  { status := 500, headers := [], body := "INTERNAL SERVER ERROR".data.map Char.toNat }

/-- The canonical request (`structures/request.rs` plus the `proto` field
used by `server/mod.rs`); the `url::Url` is represented by its ordered
path segments and its query pairs. -/
structure Request where
  proto : String := ""
  verb : String := ""
  pathSegments : List String := [String.mk []]
  query : List (String × String) := []
  headers : List (String × String) := []
  body : List Nat := []
deriving DecidableEq

/-- `Url::path()`: the raw path string, "/" followed by the
slash-separated segments. -/
def Request.urlPath (r : Request) : String :=
  String.mk ('/' :: (String.intercalate "/" r.pathSegments).data)

/-! ### `parse_output_commands` (`server/mod.rs` lines 447-470) -/

/-- `str::starts_with` on character lists. -/
def listStartsWith : List Char → List Char → Bool
  | [], _ => true
  | _ :: _, [] => false
  | p :: ps, c :: cs => p == c && listStartsWith ps cs

/-- `str::find(' ')`: index of the first space, if any. -/
def findSpace : List Char → Option Nat
  | [] => none
  | c :: cs => if c == ' ' then some 0 else (findSpace cs).map (· + 1)

/-- One decimal digit of `str::parse::<u16>`. -/
def digitVal (c : Char) : Option Nat :=
  if '0' ≤ c ∧ c ≤ '9' then some (c.toNat - '0'.toNat) else none

/-- The numeric value of a digit string, or `none` if any character is not
a decimal digit. -/
def digitsToNat (cs : List Char) : Option Nat :=
  cs.foldl
    (fun acc c =>
      match acc, digitVal c with
      | some n, some d => some (n * 10 + d)
      | _, _ => none)
    (some 0)

/-- `str::parse::<u16>`: an optional leading `'+'`, then one or more
decimal digits, value at most 65535. -/
def parseU16 (cs : List Char) : Option Nat :=
  let ds := match cs with
    | '+' :: t => t
    | t => t
  match ds, digitsToNat ds with
  | [], _ => none
  | _ :: _, some n => if n < 65536 then some n else none
  | _ :: _, none => none

/-- One iteration of the `parse_output_commands` loop over a stderr line.
`log` lines and unrecognized lines only reach the server's diagnostic log
(a side effect outside the model) and leave the response unchanged. -/
def processLine (r : Response) (line : List Char) : Response :=
  if listStartsWith "log ".data line then r
  else if listStartsWith "header ".data line then
    let pair := line.drop 7
    match findSpace pair with
    | none => r
    | some split =>
      { r with
        headers := alInsert r.headers (String.mk (pair.take split))
          (String.mk (pair.drop (split + 1))) }
  else if listStartsWith "status ".data line then
    { r with status := (parseU16 (line.drop 7)).getD 500 }
  else r

/-- `parse_output_commands`: fold the loop over the stderr lines. A
non-UTF8 stderr yields the empty line list (`String::from_utf8` failure
falls back to the empty string in the source). -/
def parseOutputCommands (lines : List (List Char)) (r : Response) : Response :=
  lines.foldl processLine r

/-! ### `run_cgi` (`server/mod.rs` lines 34-145) -/

/-- The wait result of a spawned process, as `subprocess` reports it:
`exited n` is `ExitStatus::Exited(n)` (`n` a `u32`), `signalOrOther` covers
the `Signaled`/`Other`/`Undetermined` variants, and `failed` is an `Err`
from `p.wait()` (turned into `Exited(500)` by `unwrap_or`). -/
inductive WaitResult where
  | exited (code : Nat)
  | signalOrOther
  | failed
deriving DecidableEq

/-- The observable outcome of one external-process invocation:
`spawnErr` is a `Popen::create` error, `commErr` a `communicate_bytes`
error, and `ran` a completed communication with captured stdout bytes,
stderr lines, and wait result. -/
inductive ProcResult where
  | spawnErr
  | commErr
  | ran (stdout : List Nat) (stderrLines : List (List Char)) (wait : WaitResult)
deriving DecidableEq

/-- The status computed from the exit status (`run_cgi` lines 127-136):
`Exited(0) => 200`, `Exited(n) => n as u16` (a truncating cast, hence
`% 2^16`), every other variant `=> 500`; a failed `wait()` was already
replaced by `Exited(500)`. -/
def cgiStatus : WaitResult → Nat
  | .failed => 500
  | .exited 0 => 200
  | .exited n => n % 65536
  | .signalOrOther => 500

/-- The response `run_cgi` builds before parsing stderr: status from the
exit status, no headers, body = captured stdout. -/
def cgiBase (stdout : List Nat) (wait : WaitResult) : Response :=
  { status := cgiStatus wait, headers := [], body := stdout }

/-- `run_cgi`'s translation of a process outcome into a `Response`:
spawn and communicate errors return `internal_server_error` before any
stderr parsing; a completed run parses the stderr control lines over the
base response. -/
def runCgi : ProcResult → Response
  | .spawnErr => Response.internalServerError
  | .commErr => Response.internalServerError
  | .ran stdout stderrLines wait => parseOutputCommands stderrLines (cgiBase stdout wait)

/-- The child environment built by `run_cgi` (lines 84-102): `PROTO`, one
`HEADER_<k>` per request header, one `QUERY_<k>` per query pair, `VERB`,
`REQUESTED` (the raw URL path), the configuration's environment map, and
the server's `PATH` when set (`pathVar`); nothing else. -/
def buildEnv (request : Request) (queryStrings : List (String × String)) (config : WWebS)
    (pathVar : Option String) : List (String × String) :=
  [("PROTO", request.proto)]
    ++ request.headers.map (fun kv => ("HEADER_" ++ kv.1, kv.2))
    ++ queryStrings.map (fun kv => ("QUERY_" ++ kv.1, kv.2))
    ++ [("VERB", request.verb), ("REQUESTED", request.urlPath)]
    ++ (config.env.getD [])
    ++ (match pathVar with
        | some p => [("PATH", p)]
        | none => [])

/-! ### The filesystem model and the resolution engine (`exec`) -/

/-- The two permission bits `exec` reads from an entry's metadata:
`read` is `mode & 0o004` (other-readable), `x` is `mode & 0o001`
(other-executable). -/
structure Perms where
  read : Bool
  x : Bool
deriving DecidableEq

/-- A filesystem entry. A file carries the result of `std::fs::read`
(`none` = read error) and the outcome its program produces when spawned;
a directory carries its named children and the result of reading and
parsing its `.wwebs.toml` descriptor (`Except.error` = absent, unreadable
or unparseable). -/
inductive Entry where
  | file (perms : Perms) (content : Option (List Nat)) (beh : ProcResult)
  | dir (perms : Perms) (children : List (String × Entry)) (desc : Except Unit WWebS)

/-- The permission bits of an entry. -/
def Entry.perms : Entry → Perms
  | .file p _ _ => p
  | .dir p _ _ => p

/-- `Path::is_dir`. -/
def Entry.isDir : Entry → Bool
  | .dir .. => true
  | .file .. => false

/-- `Path::is_file`. -/
def Entry.isFile : Entry → Bool
  | .file .. => true
  | .dir .. => false

/-- The named children of a directory (empty for a file). -/
def Entry.children : Entry → List (String × Entry)
  | .dir _ cs _ => cs
  | .file .. => []

/-- The descriptor-read result of a directory. -/
def Entry.descriptor : Entry → Except Unit WWebS
  | .dir _ _ d => d
  | .file .. => .error ()

/-- `get_files_at` (`server/mod.rs` lines 431-445): the file names of a
directory, the empty list for anything else. -/
def Entry.fileNames (e : Entry) : List String :=
  (e.children).map Prod.fst

/-- The `std::fs::read` result of a file. -/
def Entry.content : Entry → Option (List Nat)
  | .file _ c _ => c
  | .dir .. => none

/-- The process outcome of spawning an entry. Spawning a directory fails,
which `run_cgi` reports exactly like any other `Popen::create` error. -/
def Entry.behavior : Entry → ProcResult
  | .file _ _ b => b
  | .dir .. => .spawnErr

/-- Walk a (already percent-truncated, empty-segment-free) path down the
tree. -/
def Entry.find : Entry → List String → Option Entry
  | e, [] => some e
  | .dir _ cs _, s :: rest =>
    match alLookup cs s with
    | some c => c.find rest
    | none => none
  | .file .., _ :: _ => none

/-- The percent shortcut of `exec` (lines 158-164): a segment is truncated
at its first `'%'`. -/
def truncSeg (s : String) : String :=
  String.mk (s.data.takeWhile (fun c => c != '%'))

/-- The candidate path of an `exec` call: the first `segment` URL path
segments, each percent-truncated; empty segments vanish when pushed onto a
`PathBuf` (`"a".join("")` is still the directory `a`). -/
def pathAt (request : Request) (segment : Nat) : List String :=
  ((request.pathSegments.take segment).map truncSeg).filter (fun s => s ≠ "")

/-- `extend_config` (`server/mod.rs` lines 418-428): a successfully read
and parsed `.wwebs.toml` replaces the configuration wholesale, any failure
keeps the inherited configuration unchanged. -/
def extendConfig (config : WWebS) (res : Except Unit WWebS) : WWebS :=
  match res with
  | .ok c => c
  | .error _ => config

/-- Lexicographic order on character lists by code point, the order
`Vec::<String>::sort` uses (UTF-8 byte order coincides with code-point
order). -/
def lexLeb : List Char → List Char → Bool
  | [], _ => true
  | _ :: _, [] => false
  | a :: as, b :: bs =>
    if a.toNat < b.toNat then true
    else if b.toNat < a.toNat then false
    else lexLeb as bs

/-- Lexicographic order on strings. -/
def strLeb (a b : String) : Bool :=
  lexLeb a.data b.data

/-- Insert a string into a lexicographically sorted list. -/
def ordInsert (a : String) : List String → List String
  | [] => [a]
  | b :: l => if strLeb a b then a :: b :: l else b :: ordInsert a l

/-- `Vec::sort` on strings, as an insertion sort (strings compare totally
and antisymmetrically, so any correct sort produces this same list). -/
def sortStrings : List String → List String
  | [] => []
  | b :: l => ordInsert b (sortStrings l)

/-- The sorted hook names of one category: filenames with the given
prefix, in lexicographic order (`files.filter(..); sort()`). -/
def hookNames (pfx : String) (files : List String) : List String :=
  sortStrings (files.filter (fun v => listStartsWith pfx.data v.data))

/-- Run the program behind a directory entry name, as the hook loops do
with `path.join(name)`. The `none` case cannot arise for names taken from
the directory listing; it behaves like a spawn failure. -/
def runEntryCgi (e : Option Entry) : Response :=
  match e with
  | some ent => runCgi ent.behavior
  | none => runCgi .spawnErr

/-- `eval_gatekeepers` (lines 362-385): run every gatekeeper in order; a
non-ok result replaces the in-progress response, an ok result leaves it
unchanged. Also returns the names in invocation order. -/
def evalGatekeepers (children : List (String × Entry)) :
    List String → Response → Response × List String
  | [], r => (r, [])
  | n :: ns, r =>
    let res := runEntryCgi (alLookup children n)
    let r1 := if !res.isOk then res else r
    let rest := evalGatekeepers children ns r1
    (rest.1, n :: rest.2)

/-- The request-transformer header merge (lines 406-412): an empty value
deletes the request header, any other value is inserted. -/
def mergeHeaders (base upd : List (String × String)) : List (String × String) :=
  upd.foldl (fun h kv => if kv.2 = "" then alRemove h kv.1 else alInsert h kv.1 kv.2) base

/-- `eval_req_transformers` (lines 387-416): each transformer sees the
cumulative request; on an ok result its headers are merged into the
request headers and its body replaces the request body. -/
def evalReqTransformers (children : List (String × Entry)) :
    List String → Request → Request × List String
  | [], req => (req, [])
  | n :: ns, req =>
    let res := runEntryCgi (alLookup children n)
    let req1 := if res.isOk then
        { req with headers := mergeHeaders req.headers res.headers, body := res.body }
      else req
    let rest := evalReqTransformers children ns req1
    (rest.1, n :: rest.2)

/-- `eval_res_transformers` (lines 292-331): run unconditionally; the
response body and status are replaced by the transformer's and its headers
merged in, whatever the statuses are. (The synthetic GET request and the
`STATUS` environment entry the transformer receives only feed the spawned
process, whose outcome is already the entry's fixed `ProcResult`.) -/
def evalResTransformers (children : List (String × Entry)) :
    List String → Response → Response × List String
  | [], r => (r, [])
  | n :: ns, r =>
    let res := runEntryCgi (alLookup children n)
    let r1 : Response :=
      { status := res.status, headers := mergeHeaders r.headers res.headers, body := res.body }
    let rest := evalResTransformers children ns r1
    (rest.1, n :: rest.2)

/-- Decimal digits of a number, least significant first; the first
argument is recursion fuel (any fuel at least the number itself is
enough, one division by ten per step). -/
def digitsRevAux : Nat → Nat → List Char
  | _, 0 => []
  | 0, _ => []
  | Nat.succ fuel, Nat.succ m =>
    Nat.digitChar (Nat.succ m % 10) :: digitsRevAux fuel (Nat.succ m / 10)

/-- `u16::to_string`, the decimal rendering inserted as the `STATUS`
environment value. -/
def decimalRepr (n : Nat) : String :=
  if n = 0 then String.mk ['0'] else String.mk (digitsRevAux n n).reverse

/-- The observable events of one `exec` call tree: which hooks and target
ran, and, for each logger, the `STATUS` value its environment carried. -/
inductive TraceEv where
  | gate (name : String)
  | reqT (name : String)
  | target
  | resT (name : String)
  | logger (name : String) (status : String)
deriving DecidableEq

/-- `run_loggers` (lines 268-290): every logger runs with the final
response's status rendered into its `STATUS` environment entry; its own
result is discarded, so only the trace remains. -/
def runLoggers (names : List String) (finalStatus : Nat) : List TraceEv :=
  names.map (fun n => TraceEv.logger n (decimalRepr finalStatus))

/-- `run_file` (lines 333-360): a static file's bytes with status 200 (500
if the read fails), or the program's `run_cgi` response. -/
def runFile (x : Bool) (content : Option (List Nat)) (beh : ProcResult) : Response :=
  match x with
  | false =>
    match content with
    | some data => { status := 200, headers := [], body := data }
    | none => { status := 500, headers := [], body := [] }
  | true => runCgi beh

/-- The result of an `exec` call: the response, the request as mutated
through the pipeline, and the event trace. -/
structure ExecOut where
  response : Response
  request : Request
  trace : List TraceEv
deriving DecidableEq

/-- `Url::path_segments_mut().push(index)`: appends one more segment,
except that when the path is exactly "/" (the single empty segment) the
url crate appends the new segment right after the existing slash, so the
index replaces the empty segment. -/
def appendSegment (segs : List String) (seg : String) : List String :=
  if segs = [String.mk []] then [seg] else segs ++ [seg]

/-- The configured index filename:
`config.resolution.and_then(|v| v.index).unwrap_or("index.html")`. -/
def indexName (config : WWebS) : String :=
  (match config.resolution with
    | some r => r.index
    | none => none).getD "index.html"

/-- The tail of an `exec` call, from line 240 on: evaluate the target (a
file is run, a directory is recursed into via `recur`), run the response
transformers when the candidate is a directory, normalize status 0 to 200,
and run the loggers. -/
def execTailF (recur : Request → Nat → WWebS → Option ExecOut) (e : Entry) (config : WWebS)
    (request : Request) (segment : Nat) (response : Response) (preTrace : List TraceEv) :
    Option ExecOut :=
  let files := e.fileNames
  let step : Option (Response × Request × List TraceEv) :=
    if response.isOk then
      if e.isFile then
        some (runFile e.perms.x e.content e.behavior, request, preTrace ++ [TraceEv.target])
      else
        match recur request (segment + 1) config with
        | none => none
        | some sub => some (sub.response, sub.request, preTrace ++ sub.trace)
    else some (response, request, preTrace)
  match step with
  | none => none
  | some (r1, req1, tr1) =>
    let rt := if e.isDir then
        evalResTransformers e.children (hookNames ".res_transformer" files) r1
      else (r1, [])
    let r3 := if rt.1.status = 0 then { rt.1 with status := 200 } else rt.1
    let logEvents := runLoggers (hookNames ".logger" files) r3.status
    some ⟨r3, req1, tr1 ++ rt.2.map TraceEv.resT ++ logEvents⟩

/-- `Server::exec` (lines 152-266), fuelled. Build the candidate path from
the first `segment` URL segments; 404 when it does not resolve or is not
other-readable; for a directory, replace the configuration from its
descriptor, run the gatekeepers against the unmodified request, run the
request transformers while the response is ok, and append the configured
index segment when the request names this directory exactly; then hand
over to `execTailF`. -/
def exec (root : Entry) (fuel : Nat) (request : Request) (segment : Nat) (config : WWebS) :
    Option ExecOut :=
  match fuel with
  | 0 => none
  | Nat.succ fuel =>
    match root.find (pathAt request segment) with
    | none => some ⟨{ status := 404 }, request, []⟩
    | some e =>
      if !e.perms.read then some ⟨{ status := 404 }, request, []⟩
      else if e.isDir then
        let config1 := extendConfig config e.descriptor
        let files := e.fileNames
        let gk := evalGatekeepers e.children (hookNames ".gatekeeper" files) {}
        let response := gk.1
        let rt := if response.isOk then
            evalReqTransformers e.children (hookNames ".req_transformer" files) request
          else (request, [])
        let request1 := rt.1
        let request2 := if response.isOk && request1.pathSegments.length == segment && e.isDir then
            { request1 with
              pathSegments := appendSegment request1.pathSegments (indexName config1) }
          else request1
        execTailF (fun r s c => exec root fuel r s c) e config1 request2 segment response
          (gk.2.map TraceEv.gate ++ rt.2.map TraceEv.reqT)
      else
        execTailF (fun r s c => exec root fuel r s c) e config request segment {} []

/-! ### Laws of the association-list operations -/

theorem mem_alKeys_alInsert_of_mem {α : Type} {a : List (String × α)} {x k : String} {v : α}
    (h : x ∈ alKeys a) : x ∈ alKeys (alInsert a k v) := by
  induction a with
  | nil => simp [alKeys] at h
  | cons hd t ih =>
    obtain ⟨k', v'⟩ := hd
    simp only [alKeys, List.map, List.mem_cons] at h
    by_cases hk : k' = k
    · subst hk
      simp only [alInsert, if_pos rfl, alKeys, List.map, List.mem_cons]
      exact h
    · simp only [alInsert, if_neg hk, alKeys, List.map, List.mem_cons]
      rcases h with h | h
      · exact Or.inl h
      · exact Or.inr (ih h)

theorem mem_alKeys_alInsert_self {α : Type} (a : List (String × α)) (k : String) (v : α) :
    k ∈ alKeys (alInsert a k v) := by
  induction a with
  | nil => simp [alInsert, alKeys]
  | cons hd t ih =>
    obtain ⟨k', v'⟩ := hd
    by_cases hk : k' = k
    · subst hk
      simp [alInsert, alKeys]
    · simp only [alInsert, if_neg hk, alKeys, List.map, List.mem_cons]
      exact Or.inr ih

theorem mem_alKeys_of_mem_alInsert {α : Type} {a : List (String × α)} {x k : String} {v : α}
    (h : x ∈ alKeys (alInsert a k v)) : x ∈ alKeys a ∨ x = k := by
  induction a with
  | nil =>
    simp [alInsert, alKeys] at h
    exact Or.inr h
  | cons hd t ih =>
    obtain ⟨k', v'⟩ := hd
    by_cases hk : k' = k
    · subst hk
      simp only [alInsert, if_pos rfl, alKeys, List.map, List.mem_cons] at h
      rcases h with h | h
      · exact Or.inr h
      · exact Or.inl (by simp [alKeys, h])
    · simp only [alInsert, if_neg hk, alKeys, List.map, List.mem_cons] at h
      rcases h with h | h
      · exact Or.inl (by simp [alKeys, h])
      · rcases ih h with h' | h'
        · exact Or.inl (by simp [alKeys]; exact Or.inr (by simpa [alKeys] using h'))
        · exact Or.inr h'

theorem alInsert_alInsert_same {α : Type} (a : List (String × α)) (k : String) (w v : α) :
    alInsert (alInsert a k w) k v = alInsert a k v := by
  induction a with
  | nil => simp [alInsert]
  | cons hd t ih =>
    obtain ⟨k', v'⟩ := hd
    by_cases hk : k' = k
    · subst hk
      simp [alInsert]
    · simp [alInsert, if_neg hk, ih]

theorem alInsert_comm_of_mem {α : Type} {a : List (String × α)} {k k1 : String} (v : α)
    (v1 : α) (hmem : k ∈ alKeys a) (hne : k ≠ k1) :
    alInsert (alInsert a k1 v1) k v = alInsert (alInsert a k v) k1 v1 := by
  induction a with
  | nil => simp [alKeys] at hmem
  | cons hd t ih =>
    obtain ⟨k0, v0⟩ := hd
    simp only [alKeys, List.map, List.mem_cons] at hmem
    by_cases h0 : k0 = k
    · subst h0
      have h01 : k0 ≠ k1 := hne
      simp [alInsert, if_neg h01, if_pos rfl, if_neg (Ne.symm hne)]
    · have hmem' : k ∈ alKeys t := by
        rcases hmem with h | h
        · exact absurd h.symm h0
        · exact h
      by_cases h1 : k0 = k1
      · subst h1
        simp [alInsert, h0]
      · simp [alInsert, if_neg h0, if_neg h1, ih hmem']

theorem alUnion_nil {α : Type} (a : List (String × α)) : alUnion a [] = a := rfl

theorem alUnion_cons {α : Type} (a : List (String × α)) (kv : String × α)
    (b : List (String × α)) : alUnion a (kv :: b) = alUnion (alInsert a kv.1 kv.2) b := rfl

theorem alInsert_alUnion_of_mem {α : Type} {b a : List (String × α)} {k : String} (v : α)
    (hmem : k ∈ alKeys a) (hnot : k ∉ alKeys b) :
    alInsert (alUnion a b) k v = alUnion (alInsert a k v) b := by
  induction b generalizing a with
  | nil => simp [alUnion_nil]
  | cons kv b' ih =>
    obtain ⟨k1, v1⟩ := kv
    simp only [alKeys, List.map, List.mem_cons, not_or] at hnot
    obtain ⟨hne, hnot'⟩ := hnot
    rw [alUnion_cons, alUnion_cons]
    rw [ih (mem_alKeys_alInsert_of_mem hmem) hnot']
    rw [alInsert_comm_of_mem v v1 hmem hne]

theorem alKeys_nodup_alInsert {α : Type} {b : List (String × α)} {k : String} {v : α}
    (h : (alKeys b).Nodup) : (alKeys (alInsert b k v)).Nodup := by
  induction b with
  | nil => simp [alInsert, alKeys]
  | cons hd t ih =>
    obtain ⟨k', v'⟩ := hd
    simp only [alKeys, List.map, List.nodup_cons] at h
    obtain ⟨hk', ht⟩ := h
    by_cases hk : k' = k
    · subst hk
      simp only [alInsert, if_pos rfl, alKeys, List.map, List.nodup_cons]
      exact ⟨hk', ht⟩
    · simp only [alInsert, if_neg hk, alKeys, List.map, List.nodup_cons]
      refine ⟨fun hmem => ?_, ih ht⟩
      rcases mem_alKeys_of_mem_alInsert (by simpa [alKeys] using hmem) with h' | h'
      · exact hk' (by simpa [alKeys] using h')
      · exact hk h'

theorem alInsert_alUnion {α : Type} {b : List (String × α)} (a : List (String × α))
    (k : String) (v : α) (hb : (alKeys b).Nodup) :
    alInsert (alUnion a b) k v = alUnion a (alInsert b k v) := by
  induction b generalizing a with
  | nil => simp [alUnion_nil, alUnion, alInsert]
  | cons kv b' ih =>
    obtain ⟨k0, v0⟩ := kv
    simp only [alKeys, List.map, List.nodup_cons] at hb
    obtain ⟨h0, hb'⟩ := hb
    by_cases hk : k0 = k
    · subst hk
      have : alInsert ((k0, v0) :: b') k0 v = (k0, v) :: b' := by simp [alInsert]
      rw [this, alUnion_cons, alUnion_cons]
      rw [alInsert_alUnion_of_mem v (mem_alKeys_alInsert_self a k0 v0)
        (by simpa [alKeys] using h0)]
      rw [alInsert_alInsert_same]
    · have : alInsert ((k0, v0) :: b') k v = (k0, v0) :: alInsert b' k v := by
        simp [alInsert, if_neg hk]
      rw [this, alUnion_cons, alUnion_cons]
      exact ih (alInsert a k0 v0) hb'

theorem alUnion_assoc {α : Type} {b : List (String × α)} (a c : List (String × α))
    (hb : (alKeys b).Nodup) : alUnion (alUnion a b) c = alUnion a (alUnion b c) := by
  induction c generalizing b with
  | nil => simp [alUnion_nil]
  | cons kv c' ih =>
    rw [alUnion_cons, alUnion_cons, alInsert_alUnion a kv.1 kv.2 hb]
    exact ih (alKeys_nodup_alInsert hb)

theorem alLookup_alInsert_self {α : Type} (a : List (String × α)) (k : String) (v : α) :
    alLookup (alInsert a k v) k = some v := by
  induction a with
  | nil => simp [alInsert, alLookup]
  | cons hd t ih =>
    obtain ⟨k', v'⟩ := hd
    by_cases hk : k' = k
    · subst hk
      simp [alInsert, alLookup]
    · simp [alInsert, if_neg hk, alLookup, ih]

theorem alLookup_alInsert_ne {α : Type} (a : List (String × α)) {k key : String} (v : α)
    (h : key ≠ k) : alLookup (alInsert a k v) key = alLookup a key := by
  induction a with
  | nil => simp [alInsert, alLookup, if_neg (Ne.symm h)]
  | cons hd t ih =>
    obtain ⟨k', v'⟩ := hd
    by_cases hk : k' = k
    · subst hk
      simp [alInsert, alLookup, if_neg (Ne.symm h)]
    · simp [alInsert, if_neg hk, alLookup, ih]

theorem alLookup_eq_none_of_not_mem {α : Type} {a : List (String × α)} {k : String}
    (h : k ∉ alKeys a) : alLookup a k = none := by
  induction a with
  | nil => rfl
  | cons hd t ih =>
    obtain ⟨k', v'⟩ := hd
    simp only [alKeys, List.map, List.mem_cons, not_or] at h
    simp [alLookup, if_neg (fun hh : k' = k => h.1 hh.symm), ih h.2]

theorem alLookup_alUnion {α : Type} {b : List (String × α)} (a : List (String × α))
    (k : String) (hb : (alKeys b).Nodup) :
    alLookup (alUnion a b) k = optOr (alLookup b k) (alLookup a k) := by
  induction b generalizing a with
  | nil => simp [alUnion_nil, alLookup, optOr]
  | cons kv b' ih =>
    obtain ⟨k0, v0⟩ := kv
    simp only [alKeys, List.map, List.nodup_cons] at hb
    obtain ⟨h0, hb'⟩ := hb
    rw [alUnion_cons, ih _ hb']
    by_cases hk : k = k0
    · subst hk
      rw [alLookup_eq_none_of_not_mem (by simpa [alKeys] using h0)]
      simp [alLookup, optOr, alLookup_alInsert_self]
    · rw [alLookup_alInsert_ne _ _ hk]
      simp [alLookup, optOr, if_neg (Ne.symm hk)]

theorem mem_alKeys_alUnion {α : Type} (a b : List (String × α)) (x : String) :
    x ∈ alKeys (alUnion a b) ↔ x ∈ alKeys a ∨ x ∈ alKeys b := by
  induction b generalizing a with
  | nil => simp [alUnion_nil, alKeys]
  | cons kv b' ih =>
    obtain ⟨k0, v0⟩ := kv
    rw [alUnion_cons, ih]
    constructor
    · rintro (h | h)
      · rcases mem_alKeys_of_mem_alInsert h with h' | h'
        · exact Or.inl h'
        · exact Or.inr (by simp [alKeys, h'])
      · exact Or.inr (by simp [alKeys]; exact Or.inr (by simpa [alKeys] using h))
    · rintro (h | h)
      · exact Or.inl (mem_alKeys_alInsert_of_mem h)
      · simp only [alKeys, List.map, List.mem_cons] at h
        rcases h with h | h
        · subst h
          exact Or.inl (mem_alKeys_alInsert_self a _ v0)
        · exact Or.inr (by simpa [alKeys] using h)

theorem andOp_WWebS_def (a b : WWebS) : a &&& b = WWebS.bitand a b := rfl

theorem resolutionInfo_bitand_assoc (x y z : ResolutionInfo) :
    (x &&& y) &&& z = x &&& (y &&& z) := by
  obtain ⟨xi⟩ := x
  obtain ⟨yi⟩ := y
  obtain ⟨zi⟩ := z
  cases xi <;> cases yi <;> cases zi <;> rfl

/-- C8: the configuration combine operation (`BitAnd` on `WWebS`,
`wwebs.rs` lines 14-31 and 41-52) is a total function, associative on
operands whose environment maps are genuine maps (each key bound once); a
field defined in only one operand is taken as-is; when both operands
define the index setting the right one wins; when both define environment
maps the result is their union, every key of either map is present, and
on a shared key the right operand's value wins. -/
theorem claim_C8 :
    (∀ a b c : WWebS, b.envNodup → (a &&& b) &&& c = a &&& (b &&& c))
    ∧ (∀ a b : WWebS,
        (a.resolution = none → (a &&& b).resolution = b.resolution)
        ∧ (b.resolution = none → (a &&& b).resolution = a.resolution)
        ∧ (a.env = none → (a &&& b).env = b.env)
        ∧ (b.env = none → (a &&& b).env = a.env)
        ∧ (∀ x y, a.resolution = some x → b.resolution = some y →
            (a &&& b).resolution = some (x &&& y)))
    ∧ (∀ x y : ResolutionInfo,
        (∀ i, y.index = some i → (x &&& y).index = some i)
        ∧ (y.index = none → (x &&& y).index = x.index))
    ∧ (∀ a b : WWebS, ∀ ea eb, a.env = some ea → b.env = some eb →
        (a &&& b).env = some (alUnion ea eb)
        ∧ (∀ k, k ∈ alKeys (alUnion ea eb) ↔ k ∈ alKeys ea ∨ k ∈ alKeys eb)
        ∧ ((alKeys eb).Nodup →
            ∀ k, alLookup (alUnion ea eb) k = optOr (alLookup eb k) (alLookup ea k))) := by
  refine ⟨?_, ?_, ?_, ?_⟩
  · intro a b c hb
    obtain ⟨ares, aenv⟩ := a
    obtain ⟨bres, benv⟩ := b
    obtain ⟨cres, cenv⟩ := c
    simp only [WWebS.envNodup] at hb
    simp only [andOp_WWebS_def, WWebS.bitand]
    refine congrArg₂ WWebS.mk ?_ ?_
    · cases ares <;> cases bres <;> cases cres <;>
        first
          | rfl
          | (rename_i x y z; exact congrArg some (resolutionInfo_bitand_assoc x y z))
    · cases aenv <;> cases benv <;> cases cenv <;>
        first
          | rfl
          | (rename_i ea eb ec
             exact congrArg some (alUnion_assoc ea ec (by simpa using hb)))
  · intro a b
    obtain ⟨ares, aenv⟩ := a
    obtain ⟨bres, benv⟩ := b
    refine ⟨?_, ?_, ?_, ?_, ?_⟩ <;>
      simp only [andOp_WWebS_def, WWebS.bitand]
    · rintro rfl; cases bres <;> rfl
    · rintro rfl; cases ares <;> rfl
    · rintro rfl; cases benv <;> rfl
    · rintro rfl; cases aenv <;> rfl
    · rintro x y rfl rfl; rfl
  · intro x y
    obtain ⟨xi⟩ := x
    obtain ⟨yi⟩ := y
    constructor
    · rintro i rfl
      cases xi <;> rfl
    · rintro rfl
      cases xi <;> rfl
  · intro a b ea eb ha hb
    obtain ⟨ares, aenv⟩ := a
    obtain ⟨bres, benv⟩ := b
    simp only at ha hb
    subst ha
    subst hb
    refine ⟨rfl, mem_alKeys_alUnion ea eb, fun hnd k => alLookup_alUnion ea k hnd⟩

/-- Witness for C8 at concrete configurations: two two-entry environment
maps sharing the key K, combined associatively with a third. -/
theorem claim_C8_witness :
    ((({ resolution := some ⟨some "a.html"⟩, env := some [("K", "1"), ("L", "2")] } : WWebS)
        &&& { env := some [("K", "9")] }) &&& { resolution := some ⟨none⟩ }
      = ({ resolution := some ⟨some "a.html"⟩, env := some [("K", "1"), ("L", "2")] } : WWebS)
        &&& ({ env := some [("K", "9")] } &&& { resolution := some ⟨none⟩ }))
    ∧ alLookup (alUnion [("K", "1"), ("L", "2")] [("K", "9")]) "K"
        = optOr (alLookup [("K", "9")] "K") (alLookup [("K", "1"), ("L", "2")] "K") :=
  ⟨claim_C8.1 { resolution := some ⟨some "a.html"⟩, env := some [("K", "1"), ("L", "2")] }
      { env := some [("K", "9")] } { resolution := some ⟨none⟩ } (by decide),
    ((claim_C8.2.2.2 { resolution := some ⟨some "a.html"⟩, env := some [("K", "1"), ("L", "2")] }
      { env := some [("K", "9")] } [("K", "1"), ("L", "2")] [("K", "9")] rfl rfl).2.2
      (by decide) "K")⟩

/-- C7: `extend_config` (`server/mod.rs` lines 418-428) replaces the
working configuration wholesale by a successfully read and parsed
`.wwebs.toml`, and keeps the inherited configuration completely unchanged
when the descriptor is absent, unreadable or unparseable. -/
theorem claim_C7 (config : WWebS) (res : Except Unit WWebS) :
    (∀ parsed, res = .ok parsed → extendConfig config res = parsed)
    ∧ (res = .error () → extendConfig config res = config) := by
  constructor
  · rintro parsed rfl
    rfl
  · rintro rfl
    rfl

/-- Witness for C7: a parsed descriptor replaces the inherited index
setting; a failed read keeps it. -/
theorem claim_C7_witness :
    extendConfig { resolution := some ⟨some "home.html"⟩ } (.ok { env := some [("A", "1")] })
      = { env := some [("A", "1")] }
    ∧ extendConfig { resolution := some ⟨some "home.html"⟩ } (.error ())
      = { resolution := some ⟨some "home.html"⟩ } :=
  ⟨(claim_C7 { resolution := some ⟨some "home.html"⟩ } (.ok { env := some [("A", "1")] })).1
      { env := some [("A", "1")] } rfl,
    (claim_C7 { resolution := some ⟨some "home.html"⟩ } (.error ())).2 rfl⟩

/-- C6: the child environment built by `run_cgi` (lines 84-102) consists
exactly of `PROTO`, one `HEADER_<name>` per request header, one
`QUERY_<name>` per query parameter, `VERB`, `REQUESTED` (the raw request
path), the configuration's environment map, and the server's search-path
variable when set — nothing else from the server's ambient environment. -/
theorem claim_C6 (request : Request) (qs : List (String × String)) (config : WWebS)
    (pathVar : Option String) (kv : String × String) :
    kv ∈ buildEnv request qs config pathVar ↔
      kv = ("PROTO", request.proto)
      ∨ (∃ p ∈ request.headers, kv = ("HEADER_" ++ p.1, p.2))
      ∨ (∃ p ∈ qs, kv = ("QUERY_" ++ p.1, p.2))
      ∨ kv = ("VERB", request.verb)
      ∨ kv = ("REQUESTED", request.urlPath)
      ∨ kv ∈ config.env.getD []
      ∨ (∃ p, pathVar = some p ∧ kv = ("PATH", p)) := by
  cases pathVar <;>
    simp [buildEnv, List.mem_append, List.mem_map, or_assoc, eq_comm]

/-! ### Claims C4, C9 -/

/-- C4 counterexample: the claim says a nonzero exit code is used directly
as the status and that any spawn, I/O, or wait failure yields a generic
body. But the cast to `u16` truncates, so exit code 65736 yields status
200, not 65736; and a `wait()` failure keeps the captured stdout as the
body instead of a generic one. -/
theorem claim_C4_counterexample :
    (runCgi (.ran [] [] (.exited 65736))).status = 200
    ∧ (200 : Nat) ≠ 65736
    ∧ (runCgi (.ran [104, 105] [] .failed)).status = 500
    ∧ (runCgi (.ran [104, 105] [] .failed)).body = [104, 105]
    ∧ Response.internalServerError.body ≠ [104, 105] := by
  decide

/-- C4 (amended): exit code 0 maps to status 200 and any other exit code
`n` maps to `n mod 2^16` (the truncating `as u16` cast; codes below 65536,
the only ones a Unix wait can report, are thus used directly); a spawn or
communicate failure yields status 500 with the generic
"INTERNAL SERVER ERROR" body and no crash; a wait failure is replaced by
`Exited(500)`, yielding status 500 with the captured stdout as body. -/
theorem claim_C4 (stdout : List Nat) (n : Nat) (hn : n ≠ 0) :
    cgiStatus (.exited 0) = 200
    ∧ cgiStatus (.exited n) = n % 65536
    ∧ cgiStatus .signalOrOther = 500
    ∧ cgiStatus .failed = 500
    ∧ runCgi .spawnErr = Response.internalServerError
    ∧ runCgi .commErr = Response.internalServerError
    ∧ cgiBase stdout .failed = { status := 500, headers := [], body := stdout }
    ∧ (∀ stderrLines wait,
        runCgi (.ran stdout stderrLines wait) = parseOutputCommands stderrLines (cgiBase stdout wait)) := by
  refine ⟨rfl, ?_, rfl, rfl, rfl, rfl, rfl, fun _ _ => rfl⟩
  cases n with
  | zero => exact absurd rfl hn
  | succ m => rfl

/-- Witness for C4 at exit code 403: the status is 403. -/
theorem claim_C4_witness :
    cgiStatus (.exited 403) = 403 % 65536 ∧ (403 % 65536 : Nat) = 403 :=
  ⟨(claim_C4 [] 403 (by decide)).2.1, by decide⟩

/-- The status mapping of `From<Response> for GResponse`
(`gemini/mod.rs` lines 186-223), with the match arms in source order. -/
def geminiStatus (res : Response) : Nat :=
  if res.status = 0 then 20
  else if res.status < 62 then res.status
  else if res.isOk then 20
  else if res.status = 301 then 31
  else if res.status = 302 then 30
  else if 300 ≤ res.status ∧ res.status < 400 then 30
  else if res.status = 503 then 41
  else if res.status = 500 then 42
  else if res.status = 502 then 43
  else if res.status = 429 then 44
  else if 500 ≤ res.status ∧ res.status < 600 then 40
  else if res.status = 404 then 51
  else if res.status = 410 then 52
  else if res.status = 400 then 59
  else if res.status = 401 then 60
  else if res.status = 403 then 61
  else if res.status = 600 then 10
  else if res.status = 601 then 11
  else 42

/-- Modelled from the amended claim wording: the Gemini status table with
the sentinel case made explicit — status 0 maps to 20, any other value
under 62 passes through, `[200,300)` maps to 20, then the redirect,
failure, not-found, authentication and extension rows, everything else to
42. -/
def geminiStatusSpec (s : Nat) : Nat :=
  if s = 0 then 20
  else if s < 62 then s
  else if 200 ≤ s ∧ s < 300 then 20
  else if s = 301 then 31
  else if s = 302 then 30
  else if 300 ≤ s ∧ s < 400 then 30
  else if s = 503 then 41
  else if s = 500 then 42
  else if s = 502 then 43
  else if s = 429 then 44
  else if 500 ≤ s ∧ s < 600 then 40
  else if s = 404 then 51
  else if s = 410 then 52
  else if s = 400 then 59
  else if s = 401 then 60
  else if s = 403 then 61
  else if s = 600 then 10
  else if s = 601 then 11
  else 42

/-- C9 counterexample: the claim says every status value already under 62
is passed through unchanged, but the conversion maps status 0 (which is
under 62) to 20. -/
theorem claim_C9_counterexample :
    geminiStatus { status := 0 } = 20 ∧ (20 : Nat) ≠ 0 := by
  decide

/-- C9 (amended): the Gemini conversion maps status 0 to 20; every other
status under 62 passes through unchanged; values in `[200,300)` map to 20;
301 to 31, 302 to 30, other 3xx to 30; 503 to 41, 500 to 42, 502 to 43,
429 to 44, other 5xx to 40; 404 to 51, 410 to 52, 400 to 59; 401 to 60,
403 to 61; 600 and 601 to 10 and 11; every unmatched status to 42. -/
theorem claim_C9 (res : Response) : geminiStatus res = geminiStatusSpec res.status := by
  by_cases e0 : res.status = 0
  · simp only [geminiStatus, geminiStatusSpec, if_pos e0]
  by_cases e62 : res.status < 62
  · simp only [geminiStatus, geminiStatusSpec, if_neg e0, if_pos e62]
  by_cases e2x : 200 ≤ res.status ∧ res.status < 300
  · have eok : res.isOk = true := by
      simp only [Response.isOk, Bool.or_eq_true, beq_iff_eq, Bool.and_eq_true,
        decide_eq_true_eq]
      omega
    simp only [geminiStatus, geminiStatusSpec, if_neg e0, if_neg e62, if_pos eok,
      if_pos e2x]
  have eokF : ¬(res.isOk = true) := by
    simp only [Response.isOk, Bool.or_eq_true, beq_iff_eq, Bool.and_eq_true,
      decide_eq_true_eq]
    omega
  by_cases e301 : res.status = 301
  · simp only [geminiStatus, geminiStatusSpec, if_neg e0, if_neg e62, if_neg eokF, if_neg e2x, if_pos e301]
  by_cases e302 : res.status = 302
  · simp only [geminiStatus, geminiStatusSpec, if_neg e0, if_neg e62, if_neg eokF, if_neg e2x, if_neg e301, if_pos e302]
  by_cases e3x : 300 ≤ res.status ∧ res.status < 400
  · simp only [geminiStatus, geminiStatusSpec, if_neg e0, if_neg e62, if_neg eokF, if_neg e2x, if_neg e301, if_neg e302, if_pos e3x]
  by_cases e503 : res.status = 503
  · simp only [geminiStatus, geminiStatusSpec, if_neg e0, if_neg e62, if_neg eokF, if_neg e2x, if_neg e301, if_neg e302, if_neg e3x, if_pos e503]
  by_cases e500 : res.status = 500
  · simp only [geminiStatus, geminiStatusSpec, if_neg e0, if_neg e62, if_neg eokF, if_neg e2x, if_neg e301, if_neg e302, if_neg e3x, if_neg e503, if_pos e500]
  by_cases e502 : res.status = 502
  · simp only [geminiStatus, geminiStatusSpec, if_neg e0, if_neg e62, if_neg eokF, if_neg e2x, if_neg e301, if_neg e302, if_neg e3x, if_neg e503, if_neg e500, if_pos e502]
  by_cases e429 : res.status = 429
  · simp only [geminiStatus, geminiStatusSpec, if_neg e0, if_neg e62, if_neg eokF, if_neg e2x, if_neg e301, if_neg e302, if_neg e3x, if_neg e503, if_neg e500, if_neg e502, if_pos e429]
  by_cases e5x : 500 ≤ res.status ∧ res.status < 600
  · simp only [geminiStatus, geminiStatusSpec, if_neg e0, if_neg e62, if_neg eokF, if_neg e2x, if_neg e301, if_neg e302, if_neg e3x, if_neg e503, if_neg e500, if_neg e502, if_neg e429, if_pos e5x]
  by_cases e404 : res.status = 404
  · simp only [geminiStatus, geminiStatusSpec, if_neg e0, if_neg e62, if_neg eokF, if_neg e2x, if_neg e301, if_neg e302, if_neg e3x, if_neg e503, if_neg e500, if_neg e502, if_neg e429, if_neg e5x, if_pos e404]
  by_cases e410 : res.status = 410
  · simp only [geminiStatus, geminiStatusSpec, if_neg e0, if_neg e62, if_neg eokF, if_neg e2x, if_neg e301, if_neg e302, if_neg e3x, if_neg e503, if_neg e500, if_neg e502, if_neg e429, if_neg e5x, if_neg e404, if_pos e410]
  by_cases e400 : res.status = 400
  · simp only [geminiStatus, geminiStatusSpec, if_neg e0, if_neg e62, if_neg eokF, if_neg e2x, if_neg e301, if_neg e302, if_neg e3x, if_neg e503, if_neg e500, if_neg e502, if_neg e429, if_neg e5x, if_neg e404, if_neg e410, if_pos e400]
  by_cases e401 : res.status = 401
  · simp only [geminiStatus, geminiStatusSpec, if_neg e0, if_neg e62, if_neg eokF, if_neg e2x, if_neg e301, if_neg e302, if_neg e3x, if_neg e503, if_neg e500, if_neg e502, if_neg e429, if_neg e5x, if_neg e404, if_neg e410, if_neg e400, if_pos e401]
  by_cases e403 : res.status = 403
  · simp only [geminiStatus, geminiStatusSpec, if_neg e0, if_neg e62, if_neg eokF, if_neg e2x, if_neg e301, if_neg e302, if_neg e3x, if_neg e503, if_neg e500, if_neg e502, if_neg e429, if_neg e5x, if_neg e404, if_neg e410, if_neg e400, if_neg e401, if_pos e403]
  by_cases e600 : res.status = 600
  · simp only [geminiStatus, geminiStatusSpec, if_neg e0, if_neg e62, if_neg eokF, if_neg e2x, if_neg e301, if_neg e302, if_neg e3x, if_neg e503, if_neg e500, if_neg e502, if_neg e429, if_neg e5x, if_neg e404, if_neg e410, if_neg e400, if_neg e401, if_neg e403, if_pos e600]
  by_cases e601 : res.status = 601
  · simp only [geminiStatus, geminiStatusSpec, if_neg e0, if_neg e62, if_neg eokF, if_neg e2x, if_neg e301, if_neg e302, if_neg e3x, if_neg e503, if_neg e500, if_neg e502, if_neg e429, if_neg e5x, if_neg e404, if_neg e410, if_neg e400, if_neg e401, if_neg e403, if_neg e600, if_pos e601]
  simp only [geminiStatus, geminiStatusSpec, if_neg e0, if_neg e62, if_neg eokF, if_neg e2x, if_neg e301, if_neg e302, if_neg e3x, if_neg e503, if_neg e500, if_neg e502, if_neg e429, if_neg e5x, if_neg e404, if_neg e410, if_neg e400, if_neg e401, if_neg e403, if_neg e600, if_neg e601]

/-! ### Claim C5 -/

theorem listStartsWith_append (p rest : List Char) : listStartsWith p (p ++ rest) = true := by
  induction p with
  | nil => rfl
  | cons c cs ih => simp [listStartsWith, ih]

theorem findSpace_append_cons {key : List Char} (val : List Char) (h : ' ' ∉ key) :
    findSpace (key ++ ' ' :: val) = some key.length := by
  induction key with
  | nil => rfl
  | cons c cs ih =>
    simp only [List.mem_cons, not_or] at h
    have hc : (c == ' ') = false := by
      simp only [beq_eq_false_iff_ne, ne_eq]
      exact Ne.symm h.1
    simp [findSpace, hc, ih h.2]

theorem findSpace_eq_none {l : List Char} (h : ' ' ∉ l) : findSpace l = none := by
  induction l with
  | nil => rfl
  | cons c cs ih =>
    simp only [List.mem_cons, not_or] at h
    have hc : (c == ' ') = false := by
      simp only [beq_eq_false_iff_ne, ne_eq]
      exact Ne.symm h.1
    simp [findSpace, hc, ih h.2]

theorem take_length_append_cons (key : List Char) (c : Char) (val : List Char) :
    (key ++ c :: val).take key.length = key := by
  exact List.take_left key (c :: val)

theorem drop_length_succ_append_cons (key : List Char) (c : Char) (val : List Char) :
    (key ++ c :: val).drop (key.length + 1) = val := by
  have h : key ++ c :: val = (key ++ [c]) ++ val := by simp
  rw [h]
  have h2 : key.length + 1 = (key ++ [c]).length := by simp
  rw [h2, List.drop_left]

/-- C5: the per-line behavior of `parse_output_commands`: a
`status <code>` line overrides the status with the parsed integer (500
when unparseable); a `header <key> <value>` line sets the header whose key
is everything before the first space and whose value is exactly the
remainder after that single space (its first character is not dropped); a
`header` line without a space separator, a `log <message>` line, and any
unrecognized line leave the response unchanged. -/
theorem claim_C5 (r : Response) (rest key val msg : List Char) :
    (processLine r ("status ".data ++ rest) = { r with status := (parseU16 rest).getD 500 })
    ∧ (' ' ∉ key → processLine r ("header ".data ++ (key ++ ' ' :: val)) =
        { r with headers := alInsert r.headers (String.mk key) (String.mk val) })
    ∧ (' ' ∉ rest → processLine r ("header ".data ++ rest) = r)
    ∧ (processLine r ("log ".data ++ msg) = r)
    ∧ (listStartsWith "log ".data msg = false → listStartsWith "header ".data msg = false →
        listStartsWith "status ".data msg = false → processLine r msg = r) := by
  refine ⟨?_, ?_, ?_, ?_, ?_⟩
  · rfl
  · intro h
    have h1 : processLine r ("header ".data ++ (key ++ ' ' :: val)) =
        match findSpace (key ++ ' ' :: val) with
        | none => r
        | some split =>
          { r with
            headers := alInsert r.headers (String.mk ((key ++ ' ' :: val).take split))
              (String.mk ((key ++ ' ' :: val).drop (split + 1))) } := rfl
    rw [h1, findSpace_append_cons val h]
    show { r with
        headers := alInsert r.headers (String.mk ((key ++ ' ' :: val).take key.length))
          (String.mk ((key ++ ' ' :: val).drop (key.length + 1))) } = _
    rw [take_length_append_cons, drop_length_succ_append_cons]
  · intro h
    have h1 : processLine r ("header ".data ++ rest) =
        match findSpace rest with
        | none => r
        | some split =>
          { r with
            headers := alInsert r.headers (String.mk (rest.take split))
              (String.mk (rest.drop (split + 1))) } := rfl
    rw [h1, findSpace_eq_none h]
  · rfl
  · intro h1 h2 h3
    simp only [processLine, h1, h2, h3, Bool.false_eq_true, if_false]

/-- Witness for C5: a `status 201` line sets status 201; a
`header X-Test hello` line sets that header with the full value `hello`;
an unrecognized line leaves the response unchanged. -/
theorem claim_C5_witness :
    processLine {} ("status ".data ++ "201".data) = { status := 201 }
    ∧ processLine {} ("header ".data ++ ("X-Test".data ++ ' ' :: "hello".data)) =
        { headers := [("X-Test", "hello")] }
    ∧ processLine ({ status := 7 } : Response) "oops".data = { status := 7 } :=
  ⟨by
      have h := (claim_C5 {} "201".data [] [] []).1
      simpa using h,
    by
      have h := (claim_C5 {} [] "X-Test".data "hello".data []).2.1 (by decide)
      simpa using h,
    (claim_C5 { status := 7 } [] [] [] "oops".data).2.2.2.2 (by decide) (by decide) (by decide)⟩

/-! ### Claim C1 -/

theorem lexLeb_total (x y : List Char) : lexLeb x y = true ∨ lexLeb y x = true := by
  induction x generalizing y with
  | nil => exact Or.inl rfl
  | cons a as ih =>
    cases y with
    | nil => exact Or.inr rfl
    | cons b bs =>
      rcases Nat.lt_trichotomy a.toNat b.toNat with h | h | h
      · exact Or.inl (by simp [lexLeb, h])
      · rcases ih bs with h' | h'
        · exact Or.inl (by simp [lexLeb, h, h'])
        · exact Or.inr (by simp [lexLeb, h, h'])
      · exact Or.inr (by simp [lexLeb, h])

theorem lexLeb_trans {x y z : List Char} (h1 : lexLeb x y = true) (h2 : lexLeb y z = true) :
    lexLeb x z = true := by
  induction x generalizing y z with
  | nil => rfl
  | cons a as ih =>
    cases y with
    | nil => simp [lexLeb] at h1
    | cons b bs =>
      cases z with
      | nil => simp [lexLeb] at h2
      | cons c cs =>
        by_cases hab : a.toNat < b.toNat
        · by_cases hbc : b.toNat < c.toNat
          · simp [lexLeb, show a.toNat < c.toNat by omega]
          · by_cases hcb : c.toNat < b.toNat
            · simp [lexLeb, hbc, hcb] at h2
            · simp [lexLeb, show a.toNat < c.toNat by omega]
        · by_cases hba : b.toNat < a.toNat
          · simp [lexLeb, hab, hba] at h1
          · by_cases hbc : b.toNat < c.toNat
            · simp [lexLeb, show a.toNat < c.toNat by omega]
            · by_cases hcb : c.toNat < b.toNat
              · simp [lexLeb, hbc, hcb] at h2
              · have hac : ¬a.toNat < c.toNat := by omega
                have hca : ¬c.toNat < a.toNat := by omega
                simp only [lexLeb, hab, hba, if_neg hab, if_neg hba] at h1
                simp only [lexLeb, if_neg hbc, if_neg hcb] at h2
                simp only [lexLeb, if_neg hac, if_neg hca]
                exact ih h1 h2

theorem strLeb_total (a b : String) : strLeb a b = true ∨ strLeb b a = true :=
  lexLeb_total a.data b.data

theorem strLeb_trans {a b c : String} (h1 : strLeb a b = true) (h2 : strLeb b c = true) :
    strLeb a c = true :=
  lexLeb_trans h1 h2

theorem ordInsert_perm (a : String) (l : List String) : (ordInsert a l).Perm (a :: l) := by
  induction l with
  | nil => exact List.Perm.refl _
  | cons b t ih =>
    by_cases h : strLeb a b = true
    · simp [ordInsert, h]
    · simp only [ordInsert, h, if_false, Bool.false_eq_true]
      exact ((ih.cons b).trans (List.Perm.swap a b t))

theorem sortStrings_perm (l : List String) : (sortStrings l).Perm l := by
  induction l with
  | nil => exact List.Perm.refl _
  | cons b t ih => exact (ordInsert_perm b (sortStrings t)).trans (ih.cons b)

theorem sorted_ordInsert (a : String) (l : List String)
    (h : l.Sorted (fun x y => strLeb x y = true)) :
    (ordInsert a l).Sorted (fun x y => strLeb x y = true) := by
  induction l with
  | nil => simp [ordInsert]
  | cons b t ih =>
    rw [List.sorted_cons] at h
    by_cases hab : strLeb a b = true
    · simp only [ordInsert, hab, if_true]
      rw [List.sorted_cons]
      refine ⟨?_, by rw [List.sorted_cons]; exact h⟩
      intro c hc
      rcases List.mem_cons.mp hc with rfl | hc
      · exact hab
      · exact strLeb_trans hab (h.1 c hc)
    · simp only [ordInsert, hab, if_false, Bool.false_eq_true]
      rw [List.sorted_cons]
      refine ⟨?_, ih h.2⟩
      intro c hc
      rcases List.mem_cons.mp ((ordInsert_perm a t).mem_iff.mp hc) with rfl | h'
      · rcases strLeb_total c b with h' | h'
        · exact absurd h' hab
        · exact h'
      · exact h.1 c h'

theorem sorted_sortStrings (l : List String) :
    (sortStrings l).Sorted (fun x y => strLeb x y = true) := by
  induction l with
  | nil => simp [sortStrings]
  | cons b t ih => exact sorted_ordInsert b (sortStrings t) ih

/-- The last non-ok response of a list, if any. -/
def lastNonOk : List Response → Option Response
  | [] => none
  | r :: rs =>
    match lastNonOk rs with
    | some x => some x
    | none => if !r.isOk then some r else none

theorem evalGatekeepers_eq (children : List (String × Entry)) (names : List String)
    (r0 : Response) :
    evalGatekeepers children names r0 =
      ((lastNonOk (names.map (fun n => runEntryCgi (alLookup children n)))).getD r0, names) := by
  induction names generalizing r0 with
  | nil => rfl
  | cons n ns ih =>
    simp only [evalGatekeepers, ih, List.map, lastNonOk]
    cases h : lastNonOk (ns.map (fun n => runEntryCgi (alLookup children n))) with
    | some x => simp
    | none =>
      cases hok : (runEntryCgi (alLookup children n)).isOk <;> simp

/-- C1: every gatekeeper of a directory is run, in lexicographic filename
order, regardless of earlier failures; a non-ok result replaces the
in-progress response and an ok result leaves it unchanged, so the response
after the stage is the lexicographically last failing gatekeeper's (or the
initial response when none fails). In particular `.gatekeeper1` failing
with 403 and `.gatekeeper2` failing with 401 leave a 401 response with
both gatekeepers executed. -/
theorem claim_C1 :
    (∀ (children : List (String × Entry)) (files : List String) (r0 : Response),
      evalGatekeepers children (hookNames ".gatekeeper" files) r0 =
        ((lastNonOk ((hookNames ".gatekeeper" files).map
            (fun n => runEntryCgi (alLookup children n)))).getD r0,
          hookNames ".gatekeeper" files)
      ∧ List.Sorted (fun x y => strLeb x y = true) (hookNames ".gatekeeper" files)
      ∧ (∀ f, f ∈ hookNames ".gatekeeper" files ↔
          f ∈ files ∧ listStartsWith ".gatekeeper".data f.data = true))
    ∧ evalGatekeepers
        [(".gatekeeper1", .file ⟨true, true⟩ none (.ran [] [] (.exited 403))),
         (".gatekeeper2", .file ⟨true, true⟩ none (.ran [] [] (.exited 401)))]
        (hookNames ".gatekeeper" [".gatekeeper1", ".gatekeeper2"]) {} =
        ({ status := 401 }, [".gatekeeper1", ".gatekeeper2"]) := by
  constructor
  · intro children files r0
    refine ⟨evalGatekeepers_eq children (hookNames ".gatekeeper" files) r0, ?_, ?_⟩
    · exact sorted_sortStrings _
    · intro f
      unfold hookNames
      rw [(sortStrings_perm _).mem_iff]
      simp [List.mem_filter]
  · decide

/-! ### Claim C2 -/

/-- C2: whenever the candidate path (root joined with the first `segment`
URL segments) does not resolve, or resolves to an entry without the
other-readable bit, `exec` returns a bare 404 response immediately: no
hook or target runs (empty trace), the request is untouched, and the
other-executable bit and the configuration are irrelevant. -/
theorem claim_C2 (root : Entry) (fuel : Nat) (request : Request) (segment : Nat)
    (config : WWebS)
    (h : match root.find (pathAt request segment) with
      | none => True
      | some e => e.perms.read = false) :
    exec root (fuel + 1) request segment config = some ⟨{ status := 404 }, request, []⟩ := by
  unfold exec
  cases hf : root.find (pathAt request segment) with
  | none => rfl
  | some e =>
    rw [hf] at h
    simp [h]

/-- Witness for C2: a missing path under an empty readable directory, and
an existing file whose other-readable bit is unset (other-executable set),
both produce the bare 404. -/
theorem claim_C2_witness :
    exec (.dir ⟨true, false⟩ [] (.error ())) 1 { pathSegments := ["secret"] } 1 {} =
      some ⟨{ status := 404 }, { pathSegments := ["secret"] }, []⟩
    ∧ exec (.file ⟨false, true⟩ (some [1]) .spawnErr) 3 { pathSegments := [""] } 0 {} =
      some ⟨{ status := 404 }, { pathSegments := [""] }, []⟩ :=
  ⟨claim_C2 (.dir ⟨true, false⟩ [] (.error ())) 0 { pathSegments := ["secret"] } 1 {}
      trivial,
    claim_C2 (.file ⟨false, true⟩ (some [1]) .spawnErr) 2 { pathSegments := [""] } 0 {}
      rfl⟩

/-! ### Claim C3 -/

/-- A readable root directory holding one readable static `index.html`
with content `[72]`. -/
def fsRoot : Entry :=
  .dir ⟨true, false⟩ [("index.html", .file ⟨true, false⟩ (some [72]) .spawnErr)] (.error ())

/-- The request for "/": a single empty path segment. -/
def reqRoot : Request := {}

/-- C3 counterexample: resolving "/" at depth 1 rewrites the URL to the
index file, but the index segment is not appended as one more segment —
the url crate's push replaces the single empty segment of the path "/",
leaving one segment, not two. -/
theorem claim_C3_counterexample :
    (exec fsRoot 5 reqRoot 1 {}).map (fun out => out.request.pathSegments)
      = some ["index.html"]
    ∧ ["index.html"] ≠ reqRoot.pathSegments ++ ["index.html"] := by
  decide

/-- C3 (amended): in a call of `exec` at depth `segment` whose candidate
path resolves to a readable directory, when the response is still ok after
the gatekeepers and request transformers and the request's total
path-segment count equals `segment`, the configured index filename (the
active configuration's index, default "index.html") is pushed onto the
request's URL: appended as one more path segment, except that when the
path is exactly "/" (the single empty segment) the push replaces that
empty segment, leaving the count unchanged. The mutation affects only the
next recursive call: the current call continues with the entry found for
the candidate path computed at its start, which is not recomputed. -/
theorem claim_C3 (root : Entry) (fuel : Nat) (request : Request) (segment : Nat)
    (config : WWebS) (e : Entry) (hfind : root.find (pathAt request segment) = some e)
    (hread : e.perms.read = true) (hdir : e.isDir = true)
    (hok : (evalGatekeepers e.children (hookNames ".gatekeeper" e.fileNames) {}).1.isOk = true)
    (hcount :
      (evalReqTransformers e.children (hookNames ".req_transformer" e.fileNames)
          request).1.pathSegments.length = segment) :
    exec root (fuel + 1) request segment config =
      execTailF (fun r s c => exec root fuel r s c) e (extendConfig config e.descriptor)
        { (evalReqTransformers e.children (hookNames ".req_transformer" e.fileNames)
              request).1 with
          pathSegments :=
            appendSegment
              (evalReqTransformers e.children (hookNames ".req_transformer" e.fileNames)
                  request).1.pathSegments
              (indexName (extendConfig config e.descriptor)) }
        segment
        (evalGatekeepers e.children (hookNames ".gatekeeper" e.fileNames) {}).1
        ((evalGatekeepers e.children (hookNames ".gatekeeper" e.fileNames) {}).2.map
            TraceEv.gate
          ++ (evalReqTransformers e.children (hookNames ".req_transformer" e.fileNames)
                request).2.map TraceEv.reqT)
    ∧ (∀ segs i, appendSegment segs i =
        if segs = [String.mk []] then [i] else segs ++ [i]) := by
  refine ⟨?_, fun segs i => rfl⟩
  conv_lhs => unfold exec
  rw [hfind]
  simp only [hread, hdir, hok, hcount, Bool.not_true, Bool.false_eq_true, if_false,
    if_true, beq_self_eq_true, Bool.and_self, Bool.true_and, Bool.and_true]

/-- Witness for C3 at the "/" request against `fsRoot`: the whole index
rewrite step at depth 1. -/
theorem claim_C3_witness :
    fsRoot.find (pathAt reqRoot 1) = some fsRoot
    ∧ (evalGatekeepers fsRoot.children (hookNames ".gatekeeper" fsRoot.fileNames) {}).1.isOk
        = true
    ∧ (evalReqTransformers fsRoot.children (hookNames ".req_transformer" fsRoot.fileNames)
        reqRoot).1.pathSegments.length = 1
    ∧ exec fsRoot 5 reqRoot 1 {} =
        execTailF (fun r s c => exec fsRoot 4 r s c) fsRoot
          (extendConfig {} fsRoot.descriptor)
          { (evalReqTransformers fsRoot.children (hookNames ".req_transformer" fsRoot.fileNames)
                reqRoot).1 with
            pathSegments :=
              appendSegment
                (evalReqTransformers fsRoot.children
                    (hookNames ".req_transformer" fsRoot.fileNames) reqRoot).1.pathSegments
                (indexName (extendConfig {} fsRoot.descriptor)) }
          1
          (evalGatekeepers fsRoot.children (hookNames ".gatekeeper" fsRoot.fileNames) {}).1
          ((evalGatekeepers fsRoot.children (hookNames ".gatekeeper" fsRoot.fileNames) {}).2.map
              TraceEv.gate
            ++ (evalReqTransformers fsRoot.children
                  (hookNames ".req_transformer" fsRoot.fileNames) reqRoot).2.map
                TraceEv.reqT) :=
  ⟨rfl, by decide, by decide,
    (claim_C3 fsRoot 4 reqRoot 1 {} fsRoot rfl rfl rfl (by decide) (by decide)).1⟩

/-! ### Claim C10 -/

theorem digitsRevAux_eq_nil {f m : Nat} (h : digitsRevAux f m = []) : f = 0 ∨ m = 0 := by
  cases f with
  | zero => exact Or.inl rfl
  | succ f =>
    cases m with
    | zero => exact Or.inr rfl
    | succ m => simp [digitsRevAux] at h

theorem decimalRepr_ne_zero {n : Nat} (h : n ≠ 0) : decimalRepr n ≠ "0" := by
  intro hc
  unfold decimalRepr at hc
  rw [if_neg h] at hc
  have hdata : (digitsRevAux n n).reverse = ['0'] := congrArg String.data hc
  have hrev : digitsRevAux n n = ['0'] := by
    have h2 := congrArg List.reverse hdata
    simpa using h2
  obtain ⟨n', rfl⟩ : ∃ n', n = Nat.succ n' := ⟨n - 1, by omega⟩
  rw [digitsRevAux, List.cons_eq_cons] at hrev
  obtain ⟨h1, h2⟩ := hrev
  have hmod : Nat.succ n' % 10 = 0 := by
    have hlt : Nat.succ n' % 10 < 10 := Nat.mod_lt _ (by omega)
    set k := Nat.succ n' % 10 with hk
    interval_cases k
    · rfl
    all_goals exact absurd h1 (by decide)
  rcases digitsRevAux_eq_nil h2 with h3 | h3 <;> omega

theorem finish_status (r : Response) :
    (if r.status = 0 then ({ r with status := 200 } : Response) else r).status ≠ 0 := by
  by_cases h0 : r.status = 0
  · simp [h0]
  · simp [h0]

theorem finish_trace (names resTr : List String) (tr1 : List TraceEv) (st3 : Nat)
    (htr : ∀ name st, TraceEv.logger name st ∈ tr1 → st ≠ "0") (hst : st3 ≠ 0) :
    ∀ name st,
      TraceEv.logger name st ∈ tr1 ++ resTr.map TraceEv.resT ++ runLoggers names st3 →
        st ≠ "0" := by
  intro name st hmem
  rcases List.mem_append.mp hmem with hmem | hmem
  · rcases List.mem_append.mp hmem with hmem | hmem
    · exact htr name st hmem
    · simp [List.mem_map] at hmem
  · simp only [runLoggers, List.mem_map, TraceEv.logger.injEq] at hmem
    obtain ⟨x, _, _, hval⟩ := hmem
    rw [← hval]
    exact decimalRepr_ne_zero hst

theorem execTailF_spec (recur : Request → Nat → WWebS → Option ExecOut) (e : Entry)
    (config : WWebS) (request : Request) (segment : Nat) (response : Response)
    (preTrace : List TraceEv) (out : ExecOut)
    (hrec : ∀ r s c o, recur r s c = some o →
      o.response.status ≠ 0 ∧ ∀ name st, TraceEv.logger name st ∈ o.trace → st ≠ "0")
    (hpre : ∀ name st, TraceEv.logger name st ∉ preTrace)
    (h : execTailF recur e config request segment response preTrace = some out) :
    out.response.status ≠ 0 ∧ ∀ name st, TraceEv.logger name st ∈ out.trace → st ≠ "0" := by
  unfold execTailF at h
  by_cases hok : response.isOk = true
  · by_cases hfile : e.isFile = true
    · simp only [hok, hfile, eq_self_iff_true, if_true] at h
      injection h with h
      subst h
      refine ⟨finish_status _, finish_trace _ _ _ _ ?_ (finish_status _)⟩
      intro name st hm
      rcases List.mem_append.mp hm with hm | hm
      · exact absurd hm (hpre name st)
      · simp at hm
    · rw [Bool.not_eq_true] at hfile
      cases hr : recur request (segment + 1) config with
      | none => simp [hok, hfile, hr] at h
      | some sub =>
        simp only [hok, hfile, hr, eq_self_iff_true, if_true, Bool.false_eq_true,
          if_false] at h
        injection h with h
        subst h
        refine ⟨finish_status _, finish_trace _ _ _ _ ?_ (finish_status _)⟩
        intro name st hm
        rcases List.mem_append.mp hm with hm | hm
        · exact absurd hm (hpre name st)
        · exact (hrec _ _ _ _ hr).2 name st hm
  · rw [Bool.not_eq_true] at hok
    simp only [hok, Bool.false_eq_true, if_false] at h
    injection h with h
    subst h
    refine ⟨finish_status _, finish_trace _ _ _ _ ?_ (finish_status _)⟩
    intro name st hm
    exact absurd hm (hpre name st)

theorem exec_succ (root : Entry) (fuel : Nat) (request : Request) (segment : Nat)
    (config : WWebS) :
    exec root (fuel + 1) request segment config =
      match root.find (pathAt request segment) with
      | none => some ⟨{ status := 404 }, request, []⟩
      | some e =>
        if !e.perms.read then some ⟨{ status := 404 }, request, []⟩
        else if e.isDir then
          execTailF (fun r s c => exec root fuel r s c) e (extendConfig config e.descriptor)
            (if (evalGatekeepers e.children (hookNames ".gatekeeper" e.fileNames) {}).1.isOk
                  && (if (evalGatekeepers e.children
                          (hookNames ".gatekeeper" e.fileNames) {}).1.isOk then
                        evalReqTransformers e.children
                          (hookNames ".req_transformer" e.fileNames) request
                      else (request, [])).1.pathSegments.length == segment
                  && e.isDir then
              { (if (evalGatekeepers e.children
                      (hookNames ".gatekeeper" e.fileNames) {}).1.isOk then
                    evalReqTransformers e.children
                      (hookNames ".req_transformer" e.fileNames) request
                  else (request, [])).1 with
                pathSegments :=
                  appendSegment
                    (if (evalGatekeepers e.children
                            (hookNames ".gatekeeper" e.fileNames) {}).1.isOk then
                        evalReqTransformers e.children
                          (hookNames ".req_transformer" e.fileNames) request
                      else (request, [])).1.pathSegments
                    (indexName (extendConfig config e.descriptor)) }
            else
              (if (evalGatekeepers e.children
                      (hookNames ".gatekeeper" e.fileNames) {}).1.isOk then
                  evalReqTransformers e.children
                    (hookNames ".req_transformer" e.fileNames) request
                else (request, [])).1)
            segment
            (evalGatekeepers e.children (hookNames ".gatekeeper" e.fileNames) {}).1
            ((evalGatekeepers e.children (hookNames ".gatekeeper" e.fileNames) {}).2.map
                TraceEv.gate
              ++ (if (evalGatekeepers e.children
                      (hookNames ".gatekeeper" e.fileNames) {}).1.isOk then
                    evalReqTransformers e.children
                      (hookNames ".req_transformer" e.fileNames) request
                  else (request, [])).2.map TraceEv.reqT)
        else execTailF (fun r s c => exec root fuel r s c) e config request segment {} [] :=
  rfl

/-- C10: every `exec` response has a status different from 0 — the
sentinel is normalized to 200 at every recursion level before the loggers
run, so every logger invocation's `STATUS` environment value differs from
"0" and no caller at any level observes the sentinel. -/
theorem claim_C10 (root : Entry) (fuel : Nat) (request : Request) (segment : Nat)
    (config : WWebS) (out : ExecOut)
    (h : exec root fuel request segment config = some out) :
    out.response.status ≠ 0
    ∧ ∀ name st, TraceEv.logger name st ∈ out.trace → st ≠ "0" := by
  induction fuel generalizing request segment config out with
  | zero => exact absurd h (by simp [exec])
  | succ fuel ih =>
    rw [exec_succ] at h
    have h404 : (404 : Nat) ≠ 0 := by decide
    cases hf : root.find (pathAt request segment) with
    | none =>
      simp only [hf] at h
      injection h with h
      subst h
      refine ⟨h404, ?_⟩
      intro name st hm
      simp at hm
    | some e =>
      simp only [hf] at h
      by_cases hread : (!e.perms.read) = true
      · rw [if_pos hread] at h
        injection h with h
        subst h
        refine ⟨h404, ?_⟩
        intro name st hm
        simp at hm
      · rw [if_neg hread] at h
        by_cases hdir : e.isDir = true
        · rw [if_pos hdir] at h
          refine execTailF_spec _ _ _ _ _ _ _ _ (fun r s c o hh => ih r s c o hh) ?_ h
          intro name st
          simp [List.mem_append, List.mem_map]
        · rw [if_neg hdir] at h
          refine execTailF_spec _ _ _ _ _ _ _ _ (fun r s c o hh => ih r s c o hh) ?_ h
          intro name st
          simp

/-- A root directory with one logger hook and a static index file. -/
def logRoot : Entry :=
  .dir ⟨true, false⟩
    [(".logger0", .file ⟨true, true⟩ none (.ran [] [] (.exited 0))),
     ("index.html", .file ⟨true, false⟩ (some [72]) .spawnErr)] (.error ())

/-- Witness for C10: resolving "/" against `logRoot` visits the root
directory twice and runs the logger with `STATUS` "200" both times; the
final status is 200, not the sentinel. -/
theorem claim_C10_witness :
    exec logRoot 6 reqRoot 0 {} =
      some ⟨{ status := 200, body := [72] }, { pathSegments := ["index.html"] },
        [TraceEv.target, TraceEv.logger ".logger0" "200", TraceEv.logger ".logger0" "200"]⟩
    ∧ (200 : Nat) ≠ 0
    ∧ ("200" : String) ≠ "0" :=
  ⟨by decide,
    (claim_C10 logRoot 6 reqRoot 0 {}
      ⟨{ status := 200, body := [72] }, { pathSegments := ["index.html"] },
        [TraceEv.target, TraceEv.logger ".logger0" "200", TraceEv.logger ".logger0" "200"]⟩
      (by decide)).1,
    (claim_C10 logRoot 6 reqRoot 0 {}
      ⟨{ status := 200, body := [72] }, { pathSegments := ["index.html"] },
        [TraceEv.target, TraceEv.logger ".logger0" "200", TraceEv.logger ".logger0" "200"]⟩
      (by decide)).2 ".logger0" "200" (by decide)⟩
